import Mathlib

/-!
Verification of the crisk change-risk analysis pipeline.

This file gives a shallow embedding of the pipeline logic of the repository
(`crisk.py`, `crisk/check.py`, `crisk/auth.py`, `crisk/cli.py`) and proves
properties of it.  External effects (git subprocess output, file reads, HTTP
responses, the stored token file, interactive input) are modelled as explicit
inputs to the embedded functions; the functions themselves are direct
translations of the Python source.

Python string operations are modelled by executable functions over `List Char`
(wrapped in `String`), mirroring Python semantics:
`str.strip`, `str.split(sep)`, `str.startswith`, `str.endswith`,
`str.rstrip(chars)`, `c in s`.  Relevance scores (Python floats compared
against the literal `0.3`) are modelled as rationals.
-/

/-- Python `s.strip()`: remove leading and trailing whitespace. -/
def pyStrip (s : String) : String :=
  ⟨((s.data.dropWhile Char.isWhitespace).reverse.dropWhile Char.isWhitespace).reverse⟩

/-- Split a character list at every occurrence of `c` (Python `str.split(c)` core). -/
def splitChar (c : Char) : List Char → List (List Char)
  | [] => [[]]
  | a :: rest =>
    match splitChar c rest with
    | [] => [[]]
    | h :: t => if a = c then [] :: h :: t else (a :: h) :: t

/-- Python `s.split(c)` for a one-character separator `c`. -/
def pySplit (c : Char) (s : String) : List String :=
  (splitChar c s.data).map String.mk

/-- Python `s.startswith(p)`. -/
def pyStartsWith (s p : String) : Bool :=
  p.data.isPrefixOf s.data

/-- Python `s.endswith(p)`. -/
def pyEndsWith (s p : String) : Bool :=
  p.data.isSuffixOf s.data

/-- Python `s.rstrip(">")`: remove all trailing `>` characters. -/
def pyRstripGt (s : String) : String :=
  ⟨(s.data.reverse.dropWhile (· == '>')).reverse⟩

/-- Python `c in s` for a one-character needle. -/
def pyContainsChar (s : String) (c : Char) : Bool :=
  s.data.contains c

/-- One entry of the ranked result list returned by the relatedness-scoring
collaborator: a JSON object `{filename, score}` (`crisk.py`, `results`). -/
structure RankResult where
  filename : String
  score : ℚ
deriving DecidableEq

/-- One entry of the codebase snapshot: `{"filename": filepath, "content": content}`
(`crisk.py` / `crisk/check.py`, `get_codebase_files`). -/
structure CodeFile where
  filename : String
  content : String
deriving DecidableEq

/-- `get_staged_files` (identical in `crisk.py` and `crisk/check.py`):
`[f for f in result.stdout.strip().split('\n') if f]`, as a function of the
captured stdout of `git diff --cached --name-only`. -/
def get_staged_files (stdout : String) : List String :=
  (pySplit '\n' (pyStrip stdout)).filter (fun f => f != "")

/-- The binary/large-file extension exclusion list of `crisk.py`
`get_codebase_files` (note: no `.lock`). -/
def crisk_bin_exts : List String :=
  [".png", ".jpg", ".jpeg", ".gif", ".ico", ".pdf", ".zip", ".tar", ".gz"]

/-- The extension exclusion list of `crisk/check.py` `get_codebase_files`
(the `crisk.py` list plus `.lock`). -/
def check_bin_exts : List String :=
  [".png", ".jpg", ".jpeg", ".gif", ".ico", ".pdf", ".zip", ".tar", ".gz", ".lock"]

/-- Body of `get_codebase_files`, common to `crisk.py` and `crisk/check.py` up to
the extension list `exts`.  The tracked-file listing together with the outcome
of each file read is modelled as a list of `(filepath, readResult)` pairs,
where `readResult = none` models an `IOError`/`OSError` on `open`/`read`. -/
def build_codebase (exts : List String) : List (String × Option String) → List CodeFile
  | [] => []
  | (filepath, readResult) :: rest =>
    if filepath = "" then build_codebase exts rest
    else if exts.any (fun ext => pyEndsWith filepath ext) then build_codebase exts rest
    else
      match readResult with
      | none => build_codebase exts rest
      | some content =>
        if content.length > 50000 then build_codebase exts rest
        else ⟨filepath, content⟩ :: build_codebase exts rest

/-- `get_file_owner` helper: the email extracted from one `author-mail` line,
`line.split("<")[1].rstrip(">") if "<" in line else "unknown"`
(identical in `crisk.py` and `crisk/check.py`). -/
def email_of (line : String) : String :=
  if pyContainsChar line '<' then pyRstripGt ((pySplit '<' line).getD 1 "")
  else "unknown"

/-- `authors[email] = authors.get(email, 0) + 1` on an insertion-ordered dict,
modelled as an association list in insertion order. -/
def bump : List (String × Nat) → String → List (String × Nat)
  | [], k => [(k, 1)]
  | (a, n) :: rest, k =>
    if a = k then (a, n + 1) :: rest else (a, n) :: bump rest k

/-- The author-frequency dict built by the `for line in result.stdout.split('\n')`
loop of `get_file_owner`, as a function of the list of stdout lines. -/
def blame_authors (lines : List String) : List (String × Nat) :=
  lines.foldl
    (fun authors line =>
      if pyStartsWith line "author-mail" then bump authors (email_of line)
      else authors)
    []

/-- Python `max(iterable, key=f)` over an insertion-ordered dict: scan the
entries, replacing the current best only on a strictly greater count, so the
first-encountered maximum wins. -/
def pickMax : List (String × Nat) → (String × Nat) → (String × Nat)
  | [], best => best
  | kv :: rest, best => pickMax rest (if best.2 < kv.2 then kv else best)

/-- `get_file_owner` (identical in `crisk.py` and `crisk/check.py`) as a function
of the `git blame --porcelain` query outcome: `none` models a non-zero return
code or a raised exception, `some lines` the stdout split into lines. -/
def get_file_owner (blame : Option (List String)) : String :=
  match blame with
  | none => "unknown"
  | some lines =>
    match blame_authors lines with
    | [] => "unknown"
    | a :: rest => (pickMax rest a).1

/-- The per-line authorship keys of a blame output: one entry per
`author-mail` line, in stdout order, each mapped through `email_of`.
Used to state properties of `get_file_owner`. -/
def authorKeys (lines : List String) : List String :=
  lines.filterMap
    (fun line =>
      if pyStartsWith line "author-mail" then some (email_of line) else none)

/-- Number of occurrences of key `k` in a key list. -/
def keyCount (k : String) : List String → Nat
  | [] => 0
  | a :: rest => (if a = k then 1 else 0) + keyCount k rest

/-- Index of the first occurrence of `k` in a key list. -/
def firstIdx (k : String) : List String → Nat
  | [] => 0
  | a :: rest => if a = k then 0 else firstIdx k rest + 1

/-- Count lookup in the insertion-ordered dict, defaulting to 0. -/
def lookupD : List (String × Nat) → String → Nat
  | [], _ => 0
  | (a, n) :: rest, k => if a = k then n else lookupD rest k

/-- The keys of a key list in first-occurrence order, skipping keys in `seen`:
the key order of the dict built by repeated `bump`. -/
def newKeys (seen : List String) : List String → List String
  | [] => []
  | k :: rest =>
    if k ∈ seen then newKeys seen rest else k :: newKeys (k :: seen) rest

namespace Crisk

/-- The HTTP response of the relatedness-scoring collaborator as consumed by
`crisk.py` `rank_related_files`: the status code and the parsed
`response.json().get("results", [])`. -/
structure RankResponse where
  status_code : Nat
  results : List RankResult
deriving DecidableEq

/-- `crisk.py` `rank_related_files`, as a function of the collaborator response
and the staged-file list.  On a non-200 status it returns `[]`; otherwise it
filters out staged files, slices `related[:10]`, and keeps entries with
`score > 0.3`. -/
def rank_related_files (resp : RankResponse) (staged_files : List String) :
    List RankResult :=
  if resp.status_code ≠ 200 then []
  else
    let related := resp.results.filter (fun r => !(staged_files.contains r.filename))
    (related.take 10).filter (fun r => decide ((3 : ℚ)/10 < r.score))

/-- The post-processing of the collaborator result as the specification words
it: remove staged entries, then remove entries with score ≤ 0.3, then take the
first 10 remaining entries. -/
def rank_post_claim (results : List RankResult) (staged_files : List String) :
    List RankResult :=
  (((results.filter (fun r => !(staged_files.contains r.filename))).filter
    (fun r => decide ((3 : ℚ)/10 < r.score))).take 10)

/-- The post-processing of the collaborator result in the order the code
performs it: remove staged entries, then take the first 10 remaining entries,
then remove entries with score ≤ 0.3. -/
def rank_post_amended (results : List RankResult) (staged_files : List String) :
    List RankResult :=
  (((results.filter (fun r => !(staged_files.contains r.filename))).take 10).filter
    (fun r => decide ((3 : ℚ)/10 < r.score)))

/-- Terminal conditions of the `crisk.py` `main` pipeline (after the `check`
argument has been accepted). -/
inductive Outcome
  | noChange
  | noRelated
  | report
deriving DecidableEq

/-- Observable trace of one `crisk.py` `main` run: terminal condition, process
exit status, and the number of calls made to the relatedness-scoring
collaborator (Relace) and to the text-generation collaborator (Gemini). -/
structure RunTrace where
  outcome : Outcome
  exitCode : Nat
  relaceCalls : Nat
  geminiCalls : Nat
deriving DecidableEq

/-- `crisk.py` `main` (the `check` pipeline), as a function of the staged diff,
the staged-file list, the scoring collaborator response, the `--draft` flag and
the interactive draft confirmation. -/
def main (auto_draft : Bool) (diff : String) (staged_files : List String)
    (resp : RankResponse) (userAcceptsDraft : Bool) : RunTrace :=
  if diff = "" ∨ staged_files = [] then ⟨.noChange, 1, 0, 0⟩
  else
    let related := rank_related_files resp staged_files
    if related = [] then ⟨.noRelated, 0, 1, 0⟩
    else
      let should_draft := auto_draft || userAcceptsDraft
      ⟨.report, 0, 1, if should_draft then 1 else 0⟩

/-- `crisk.py` `get_codebase_files`, as a function of the tracked-file listing
paired with the outcome of each file read. -/
def get_codebase_files (files : List (String × Option String)) : List CodeFile :=
  build_codebase crisk_bin_exts files

end Crisk

namespace Auth

/-- `crisk/auth.py` `load_token`, as a function of the token file state
(`none` = file absent, `some content` = file content). -/
def load_token (tokenFile : Option String) : Option String :=
  match tokenFile with
  | some content => some (pyStrip content)
  | none => none

/-- `crisk/auth.py` `is_authenticated`:
`token is not None and len(token) > 0`. -/
def is_authenticated (tokenFile : Option String) : Bool :=
  match load_token tokenFile with
  | some token => decide (0 < token.length)
  | none => false

end Auth

namespace Check

/-- The parsed backend response body consumed by `crisk/check.py` `run_check`:
`result.get("related_files", [])` and `result.get("draft_message", "")`. -/
structure BackendResult where
  related_files : List RankResult
  draft_message : String
deriving DecidableEq

/-- Terminal conditions of `crisk/check.py` `run_check`. -/
inductive CheckOutcome
  | noAuth
  | noChange
  | backendError
  | noRelated
  | report
deriving DecidableEq

/-- Observable trace of one `run_check` run: terminal condition, return value
(which `crisk/cli.py` `main` passes to `sys.exit`), and the number of calls
made to the backend collaborator. -/
structure CheckTrace where
  outcome : CheckOutcome
  exitCode : Nat
  backendCalls : Nat
deriving DecidableEq

/-- `crisk/check.py` `run_check`, as a function of the token file state, the
staged diff, the staged-file list, and the backend call outcome
(`none` models every failure path of `analyze_via_backend`: 401, non-200,
connection error, timeout, unexpected exception). -/
def run_check (tokenFile : Option String) (diff : String)
    (staged_files : List String) (backend : Option BackendResult) : CheckTrace :=
  if !(Auth.is_authenticated tokenFile) then ⟨.noAuth, 1, 0⟩
  else if diff = "" ∨ staged_files = [] then ⟨.noChange, 1, 0⟩
  else
    match backend with
    | none => ⟨.backendError, 1, 1⟩
    | some result =>
      if result.related_files = [] then ⟨.noRelated, 0, 1⟩
      else ⟨.report, 0, 1⟩

/-- `crisk/check.py` `get_codebase_files`, as a function of the tracked-file
listing paired with the outcome of each file read. -/
def get_codebase_files (files : List (String × Option String)) : List CodeFile :=
  build_codebase check_bin_exts files

end Check

/-- Blame output of the specification scenario: 5 lines attributed to
`alice@example.com` and 3 lines to `bob@example.com`. -/
def blameLinesEx : List String :=
  [ "author-mail <alice@example.com>"
  , "author-mail <alice@example.com>"
  , "author-mail <bob@example.com>"
  , "author-mail <alice@example.com>"
  , "author-mail <bob@example.com>"
  , "author-mail <alice@example.com>"
  , "author-mail <bob@example.com>"
  , "author-mail <alice@example.com>"
  ]

/-- A collaborator result list with 11 entries: one below the score threshold
followed by ten above it. -/
def exResults : List RankResult :=
  [ ⟨"f0", 0⟩, ⟨"f1", 1⟩, ⟨"f2", 1⟩, ⟨"f3", 1⟩, ⟨"f4", 1⟩, ⟨"f5", 1⟩
  , ⟨"f6", 1⟩, ⟨"f7", 1⟩, ⟨"f8", 1⟩, ⟨"f9", 1⟩, ⟨"f10", 1⟩ ]

set_option maxRecDepth 10000

/-- A string has positive length exactly when it is not the empty string. -/
theorem string_length_pos (s : String) : 0 < s.length ↔ s ≠ "" := by
  obtain ⟨l⟩ := s
  cases l <;> simp [String.length, String.ext_iff]

/-- Keys of the dict after a `bump`: unchanged if the key was present,
otherwise the key is appended. -/
theorem bump_fst (A : List (String × Nat)) (k : String) :
    (bump A k).map Prod.fst =
      if k ∈ A.map Prod.fst then A.map Prod.fst else A.map Prod.fst ++ [k] := by
  induction A with
  | nil => simp [bump]
  | cons a rest ih =>
    obtain ⟨x, n⟩ := a
    by_cases hx : x = k
    · subst hx
      simp [bump]
    · simp only [bump, if_neg hx, List.map_cons]
      rw [ih]
      by_cases hk : k ∈ rest.map Prod.fst
      · rw [if_pos hk, if_pos (by simp [hk])]
      · have hnot : k ∉ x :: rest.map Prod.fst := by
          simp only [List.mem_cons, not_or]
          exact ⟨fun h => hx h.symm, hk⟩
        rw [if_neg hk, if_neg hnot]
        simp

/-- A `bump` increments the count of its key by one. -/
theorem bump_lookup_self (A : List (String × Nat)) (k : String) :
    lookupD (bump A k) k = lookupD A k + 1 := by
  induction A with
  | nil => simp [bump, lookupD]
  | cons a rest ih =>
    obtain ⟨x, n⟩ := a
    by_cases hx : x = k
    · subst hx
      simp [bump, lookupD]
    · simp [bump, lookupD, hx, ih]

/-- A `bump` leaves the count of every other key unchanged. -/
theorem bump_lookup_ne (A : List (String × Nat)) {j k : String} (h : j ≠ k) :
    lookupD (bump A k) j = lookupD A j := by
  have hkj : ¬ k = j := fun hh => h hh.symm
  induction A with
  | nil => simp [bump, lookupD, hkj]
  | cons a rest ih =>
    obtain ⟨x, n⟩ := a
    by_cases hx : x = k
    · subst hx
      simp [bump, lookupD, hkj]
    · by_cases hj : x = j
      · simp [bump, lookupD, hx, hj, h]
      · simp [bump, lookupD, hx, hj, ih]

/-- Membership in `newKeys seen ks`: the keys of `ks` not already seen. -/
theorem mem_newKeys {a : String} : ∀ {ks seen : List String},
    a ∈ newKeys seen ks ↔ (a ∉ seen ∧ a ∈ ks) := by
  intro ks
  induction ks with
  | nil => simp [newKeys]
  | cons k rest ih =>
    intro seen
    by_cases hk : k ∈ seen
    · rw [newKeys, if_pos hk, ih]
      constructor
      · rintro ⟨h1, h2⟩
        exact ⟨h1, List.mem_cons_of_mem _ h2⟩
      · rintro ⟨h1, h2⟩
        rcases List.mem_cons.mp h2 with h | h
        · exact absurd (h ▸ hk) h1
        · exact ⟨h1, h⟩
    · rw [newKeys, if_neg hk, List.mem_cons, ih]
      constructor
      · rintro (h | ⟨h1, h2⟩)
        · subst h
          exact ⟨hk, List.mem_cons_self _ _⟩
        · exact ⟨fun hs => h1 (List.mem_cons_of_mem _ hs), List.mem_cons_of_mem _ h2⟩
      · rintro ⟨h1, h2⟩
        rcases List.mem_cons.mp h2 with h | h
        · exact Or.inl h
        · by_cases hak : a = k
          · exact Or.inl hak
          · refine Or.inr ⟨?_, h⟩
            simp only [List.mem_cons, not_or]
            exact ⟨hak, h1⟩

/-- `newKeys` only depends on the membership of the seen set. -/
theorem newKeys_congr : ∀ {ks seen₁ seen₂ : List String},
    (∀ x, x ∈ seen₁ ↔ x ∈ seen₂) → newKeys seen₁ ks = newKeys seen₂ ks := by
  intro ks
  induction ks with
  | nil => intro seen₁ seen₂ _; rfl
  | cons k rest ih =>
    intro seen₁ seen₂ h
    by_cases hk : k ∈ seen₁
    · rw [newKeys, if_pos hk, newKeys, if_pos ((h k).mp hk)]
      exact ih h
    · rw [newKeys, if_neg hk, newKeys, if_neg (fun hh => hk ((h k).mpr hh))]
      congr 1
      refine ih (fun x => ?_)
      simp only [List.mem_cons]
      rw [h x]

/-- The keys of a dict built by folding `bump` over a key list are the
previous keys followed by the not-yet-seen keys in first-occurrence order. -/
theorem foldl_bump_fst : ∀ (ks : List String) (A : List (String × Nat)),
    (ks.foldl bump A).map Prod.fst =
      A.map Prod.fst ++ newKeys (A.map Prod.fst) ks := by
  intro ks
  induction ks with
  | nil => intro A; simp [newKeys]
  | cons k rest ih =>
    intro A
    rw [List.foldl_cons, ih]
    by_cases hk : k ∈ A.map Prod.fst
    · rw [bump_fst, if_pos hk, newKeys, if_pos hk]
    · rw [bump_fst, if_neg hk, newKeys, if_neg hk]
      have hcongr : newKeys (A.map Prod.fst ++ [k]) rest
          = newKeys (k :: A.map Prod.fst) rest := by
        refine newKeys_congr (fun x => ?_)
        simp only [List.mem_append, List.mem_singleton, List.mem_cons]
        tauto
      rw [hcongr, List.append_assoc, List.singleton_append]

/-- Folding `bump` over a key list adds the occurrence count of each key. -/
theorem foldl_bump_lookup : ∀ (ks : List String) (A : List (String × Nat)) (j : String),
    lookupD (ks.foldl bump A) j = lookupD A j + keyCount j ks := by
  intro ks
  induction ks with
  | nil => intro A j; simp [keyCount]
  | cons k rest ih =>
    intro A j
    rw [List.foldl_cons, ih]
    by_cases hj : k = j
    · subst hj
      rw [bump_lookup_self, keyCount, if_pos rfl]
      omega
    · rw [bump_lookup_ne A (fun hh => hj hh.symm), keyCount, if_neg hj]
      omega

/-- First-occurrence index below a non-matching head. -/
theorem firstIdx_cons_ne {x k : String} (h : ¬ x = k) (l : List String) :
    firstIdx k (x :: l) = firstIdx k l + 1 := by
  simp [firstIdx, h]

/-- The keys produced by `newKeys` are ordered by first occurrence in the
source key list. -/
theorem newKeys_pairwise : ∀ (ks seen : List String),
    (newKeys seen ks).Pairwise (fun a b => firstIdx a ks < firstIdx b ks) := by
  intro ks
  induction ks with
  | nil => intro seen; simp [newKeys]
  | cons k rest ih =>
    intro seen
    by_cases hk : k ∈ seen
    · rw [newKeys, if_pos hk]
      refine List.Pairwise.imp_of_mem ?_ (ih seen)
      intro a b ha hb hlt
      have ha2 := mem_newKeys.mp ha
      have hb2 := mem_newKeys.mp hb
      have hak : ¬ k = a := fun h => ha2.1 (h ▸ hk)
      have hbk : ¬ k = b := fun h => hb2.1 (h ▸ hk)
      rw [firstIdx_cons_ne hak, firstIdx_cons_ne hbk]
      omega
    · rw [newKeys, if_neg hk]
      refine List.Pairwise.cons ?_ ?_
      · intro b hb
        have hb2 := mem_newKeys.mp hb
        have hbk : ¬ k = b := by
          intro h
          exact hb2.1 (h ▸ List.mem_cons_self _ _)
        rw [show firstIdx k (k :: rest) = 0 from by simp [firstIdx],
          firstIdx_cons_ne hbk]
        omega
      · refine List.Pairwise.imp_of_mem ?_ (ih (k :: seen))
        intro a b ha hb hlt
        have ha2 := mem_newKeys.mp ha
        have hb2 := mem_newKeys.mp hb
        have hak : ¬ k = a := fun h => ha2.1 (h ▸ List.mem_cons_self _ _)
        have hbk : ¬ k = b := fun h => hb2.1 (h ▸ List.mem_cons_self _ _)
        rw [firstIdx_cons_ne hak, firstIdx_cons_ne hbk]
        omega

/-- The keys produced by `newKeys` are distinct. -/
theorem newKeys_nodup (ks seen : List String) : (newKeys seen ks).Nodup := by
  refine List.Pairwise.imp ?_ (newKeys_pairwise ks seen)
  intro a b hlt h
  subst h
  omega

/-- In a dict with distinct keys, lookup of a present entry returns its value. -/
theorem lookupD_of_mem_nodup : ∀ {A : List (String × Nat)} {k : String} {n : Nat},
    (A.map Prod.fst).Nodup → (k, n) ∈ A → lookupD A k = n := by
  intro A
  induction A with
  | nil => intro k n _ hm; simp at hm
  | cons a rest ih =>
    intro k n hnd hm
    obtain ⟨x, m⟩ := a
    simp only [List.map_cons, List.nodup_cons] at hnd
    rcases List.mem_cons.mp hm with h | h
    · injection h with h1 h2
      subst h1
      subst h2
      simp [lookupD]
    · have hx : ¬ x = k := by
        intro hh
        subst hh
        exact hnd.1 (List.mem_map.mpr ⟨(x, n), h, rfl⟩)
      rw [lookupD, if_neg hx]
      exact ih hnd.2 h

/-- `pickMax` never returns a value below its starting candidate. -/
theorem pickMax_ge : ∀ (l : List (String × Nat)) (best : String × Nat),
    best.2 ≤ (pickMax l best).2 := by
  intro l
  induction l with
  | nil => intro best; simp [pickMax]
  | cons kv rest ih =>
    intro best
    rw [pickMax]
    by_cases h : best.2 < kv.2
    · rw [if_pos h]
      exact le_of_lt (lt_of_lt_of_le h (ih kv))
    · rw [if_neg h]
      exact ih best

/-- `pickMax` returns the first maximum of the scanned sequence: every entry
strictly before the result has a strictly smaller count, every entry after it
has a count not above it. -/
theorem pickMax_decomp : ∀ (l : List (String × Nat)) (best : String × Nat),
    ∃ pre post, best :: l = pre ++ (pickMax l best) :: post ∧
      (∀ x ∈ pre, x.2 < (pickMax l best).2) ∧
      (∀ x ∈ post, x.2 ≤ (pickMax l best).2) := by
  intro l
  induction l with
  | nil =>
    intro best
    exact ⟨[], [], rfl, by simp, by simp⟩
  | cons kv rest ih =>
    intro best
    rw [pickMax]
    by_cases h : best.2 < kv.2
    · rw [if_pos h]
      obtain ⟨pre, post, hdec, hpre, hpost⟩ := ih kv
      refine ⟨best :: pre, post, ?_, ?_, hpost⟩
      · rw [List.cons_append, ← hdec]
      · intro x hx
        rcases List.mem_cons.mp hx with hxx | hxx
        · subst hxx
          exact lt_of_lt_of_le h (pickMax_ge rest kv)
        · exact hpre x hxx
    · rw [if_neg h]
      obtain ⟨pre, post, hdec, hpre, hpost⟩ := ih best
      cases pre with
      | nil =>
        simp only [List.nil_append] at hdec
        injection hdec with h1 h2
        refine ⟨[], kv :: post, ?_, by simp, ?_⟩
        · rw [List.nil_append, ← h1, h2]
        · intro x hx
          rcases List.mem_cons.mp hx with hxx | hxx
          · subst hxx
            rw [← h1]
            omega
          · exact hpost x hxx
      | cons p pre2 =>
        rw [List.cons_append] at hdec
        injection hdec with h1 h2
        have hbest : best.2 < (pickMax rest best).2 := by
          have hp := hpre p (List.mem_cons_self _ _)
          rw [← h1] at hp
          exact hp
        refine ⟨best :: kv :: pre2, post, ?_, ?_, hpost⟩
        · rw [List.cons_append, List.cons_append, ← h2]
        · intro x hx
          rcases List.mem_cons.mp hx with hxx | hxx
          · subst hxx
            exact hbest
          · rcases List.mem_cons.mp hxx with hyy | hyy
            · subst hyy
              omega
            · exact hpre x (List.mem_cons_of_mem _ hyy)

/-- The author-mail loop of `get_file_owner` is the fold of `bump` over the
extracted author keys. -/
theorem foldl_step_eq : ∀ (lines : List String) (A : List (String × Nat)),
    lines.foldl
      (fun authors line =>
        if pyStartsWith line "author-mail" then bump authors (email_of line)
        else authors) A
      = (authorKeys lines).foldl bump A := by
  intro lines
  induction lines with
  | nil => intro A; rfl
  | cons line rest ih =>
    intro A
    cases h : pyStartsWith line "author-mail" with
    | true =>
      rw [List.foldl_cons, if_pos h, ih]
      have hk : authorKeys (line :: rest) = email_of line :: authorKeys rest := by
        simp [authorKeys, List.filterMap_cons, h]
      rw [hk, List.foldl_cons]
    | false =>
      rw [List.foldl_cons, if_neg (by simp [h]), ih]
      have hk : authorKeys (line :: rest) = authorKeys rest := by
        simp [authorKeys, List.filterMap_cons, h]
      rw [hk]

/-- `blame_authors` as a fold of `bump` over the author keys. -/
theorem blame_authors_foldl (lines : List String) :
    blame_authors lines = (authorKeys lines).foldl bump [] :=
  foldl_step_eq lines []

/-- Core property of `get_file_owner` on a successful blame query with at
least one author-mail record: the result is an author key whose per-line
count is maximal, and on an exact tie the first-encountered key wins. -/
theorem get_file_owner_max (lines : List String) (hne : authorKeys lines ≠ []) :
    get_file_owner (some lines) ∈ authorKeys lines ∧
    (∀ k ∈ authorKeys lines,
      keyCount k (authorKeys lines)
        ≤ keyCount (get_file_owner (some lines)) (authorKeys lines)) ∧
    (∀ k ∈ authorKeys lines,
      keyCount k (authorKeys lines)
          = keyCount (get_file_owner (some lines)) (authorKeys lines) →
      firstIdx (get_file_owner (some lines)) (authorKeys lines)
        ≤ firstIdx k (authorKeys lines)) := by
  have hfst : (blame_authors lines).map Prod.fst = newKeys [] (authorKeys lines) := by
    rw [blame_authors_foldl, foldl_bump_fst]
    simp
  have hnodup : ((blame_authors lines).map Prod.fst).Nodup := by
    rw [hfst]
    exact newKeys_nodup _ _
  have hpw : ((blame_authors lines).map Prod.fst).Pairwise
      (fun a b => firstIdx a (authorKeys lines) < firstIdx b (authorKeys lines)) := by
    rw [hfst]
    exact newKeys_pairwise _ _
  have hlook : ∀ j, lookupD (blame_authors lines) j = keyCount j (authorKeys lines) := by
    intro j
    rw [blame_authors_foldl, foldl_bump_lookup]
    simp [lookupD]
  have hkeymem : ∀ k, k ∈ (blame_authors lines).map Prod.fst ↔ k ∈ authorKeys lines := by
    intro k
    rw [hfst, mem_newKeys]
    simp
  have hval : ∀ x, x ∈ blame_authors lines → x.2 = keyCount x.1 (authorKeys lines) := by
    intro x hx
    have hmem : (x.1, x.2) ∈ blame_authors lines := by
      simpa using hx
    have hlk := lookupD_of_mem_nodup hnodup hmem
    rw [hlook] at hlk
    exact hlk.symm
  rcases hBs : blame_authors lines with _ | ⟨a, rest⟩
  · exfalso
    obtain ⟨k, hk⟩ := List.exists_mem_of_ne_nil _ hne
    have hkb : k ∈ (blame_authors lines).map Prod.fst := (hkeymem k).mpr hk
    rw [hBs] at hkb
    simp at hkb
  · have hgo : get_file_owner (some lines) = (pickMax rest a).1 := by
      simp only [get_file_owner, hBs]
    obtain ⟨pre, post, hdec, hpre, hpost⟩ := pickMax_decomp rest a
    have hrB : pickMax rest a ∈ blame_authors lines := by
      rw [hBs, hdec]
      exact List.mem_append.mpr (Or.inr (List.mem_cons_self _ _))
    have hrval : (pickMax rest a).2
        = keyCount (pickMax rest a).1 (authorKeys lines) := hval _ hrB
    refine ⟨?_, ?_, ?_⟩
    · rw [hgo]
      exact (hkeymem _).mp (List.mem_map_of_mem Prod.fst hrB)
    · intro k hk
      obtain ⟨x, hxB, hxfst⟩ := List.mem_map.mp ((hkeymem k).mpr hk)
      have hxval : x.2 = keyCount k (authorKeys lines) := by
        rw [hval x hxB, hxfst]
      have hxmem : x ∈ pre ++ pickMax rest a :: post := by
        rw [← hdec, ← hBs]
        exact hxB
      rw [hgo, ← hrval, ← hxval]
      rcases List.mem_append.mp hxmem with h | h
      · exact le_of_lt (hpre x h)
      · rcases List.mem_cons.mp h with h | h
        · rw [h]
        · exact hpost x h
    · intro k hk heq
      obtain ⟨x, hxB, hxfst⟩ := List.mem_map.mp ((hkeymem k).mpr hk)
      have hxval : x.2 = keyCount k (authorKeys lines) := by
        rw [hval x hxB, hxfst]
      have hxr : x.2 = (pickMax rest a).2 := by
        rw [hxval, heq, hgo, ← hrval]
      have hxmem : x ∈ pre ++ pickMax rest a :: post := by
        rw [← hdec, ← hBs]
        exact hxB
      rcases List.mem_append.mp hxmem with h | h
      · exact absurd hxr (by have := hpre x h; omega)
      · rcases List.mem_cons.mp h with h | h
        · rw [hgo, ← hxfst, h]
        · have hpw2 : ((pre ++ pickMax rest a :: post).map Prod.fst).Pairwise
              (fun a b => firstIdx a (authorKeys lines) < firstIdx b (authorKeys lines)) := by
            rw [← hdec, ← hBs]
            exact hpw
          rw [List.map_append, List.map_cons] at hpw2
          have hcons := (List.pairwise_append.mp hpw2).2.1
          have hfirst := (List.pairwise_cons.mp hcons).1
          have hlt : firstIdx (pickMax rest a).1 (authorKeys lines)
              < firstIdx k (authorKeys lines) := by
            refine hfirst k ?_
            rw [← hxfst]
            exact List.mem_map_of_mem Prod.fst h
          rw [hgo]
          omega

/-- Every snapshot entry respects the size ceiling and the extension
exclusion list it was built with. -/
theorem build_codebase_bounds (exts : List String) :
    ∀ (files : List (String × Option String)) (cf : CodeFile),
      cf ∈ build_codebase exts files →
      cf.content.length ≤ 50000 ∧ ∀ ext ∈ exts, pyEndsWith cf.filename ext = false := by
  intro files
  induction files with
  | nil => intro cf h; simp [build_codebase] at h
  | cons fr rest ih =>
    intro cf h
    obtain ⟨fp, rd⟩ := fr
    simp only [build_codebase] at h
    by_cases h1 : fp = ""
    · rw [if_pos h1] at h
      exact ih cf h
    · rw [if_neg h1] at h
      by_cases h2 : exts.any (fun ext => pyEndsWith fp ext) = true
      · rw [if_pos h2] at h
        exact ih cf h
      · rw [if_neg h2] at h
        cases rd with
        | none => exact ih cf h
        | some content =>
          dsimp only at h
          by_cases h3 : content.length > 50000
          · rw [if_pos h3] at h
            exact ih cf h
          · rw [if_neg h3] at h
            rcases List.mem_cons.mp h with hc | hc
            · subst hc
              refine ⟨by simpa using Nat.le_of_not_lt h3, ?_⟩
              intro ext hext
              simp only [List.any_eq_true, not_exists, not_and] at h2
              have hno := h2 ext hext
              simpa using hno
            · exact ih cf hc

/-- A file whose read failed contributes nothing to the snapshot and does not
abort the build. -/
theorem build_codebase_read_skip (exts : List String) (fp : String)
    (rest : List (String × Option String)) :
    build_codebase exts ((fp, none) :: rest) = build_codebase exts rest := by
  simp only [build_codebase]
  by_cases h1 : fp = ""
  · rw [if_pos h1]
  · rw [if_neg h1]
    by_cases h2 : exts.any (fun ext => pyEndsWith fp ext) = true
    · rw [if_pos h2]
    · rw [if_neg h2]

/-- C1 (counterexample): the post-processing order stated by the claim
(staged filter, then score filter, then truncate to 10) disagrees with the
code on a concrete collaborator result of eleven entries whose first entry is
below the score threshold: the code truncates `related[:10]` before applying
the score filter and returns nine entries, while the claimed order returns
ten. -/
theorem rank_related_files_claim_order_cex :
    Crisk.rank_related_files ⟨200, exResults⟩ []
      ≠ Crisk.rank_post_claim exResults [] := by
  have h1 : Crisk.rank_related_files ⟨200, exResults⟩ [] =
      [⟨"f1", 1⟩, ⟨"f2", 1⟩, ⟨"f3", 1⟩, ⟨"f4", 1⟩, ⟨"f5", 1⟩, ⟨"f6", 1⟩,
       ⟨"f7", 1⟩, ⟨"f8", 1⟩, ⟨"f9", 1⟩] := by
    norm_num [Crisk.rank_related_files, exResults]
  have h2 : Crisk.rank_post_claim exResults [] =
      [⟨"f1", 1⟩, ⟨"f2", 1⟩, ⟨"f3", 1⟩, ⟨"f4", 1⟩, ⟨"f5", 1⟩, ⟨"f6", 1⟩,
       ⟨"f7", 1⟩, ⟨"f8", 1⟩, ⟨"f9", 1⟩, ⟨"f10", 1⟩] := by
    norm_num [Crisk.rank_post_claim, exResults]
  intro h
  rw [h1, h2] at h
  have hlen := congrArg List.length h
  simp at hlen

/-- C1 (amended): for every ranked result list returned with HTTP status 200
and every staged-file list, the output of `rank_related_files` equals the
result of first removing every entry whose path is in the staged-file list,
then taking the first 10 remaining entries in collaborator-returned order,
then removing every entry with score ≤ 0.3. -/
theorem rank_related_files_amended_order (results : List RankResult)
    (staged_files : List String) :
    Crisk.rank_related_files ⟨200, results⟩ staged_files
      = Crisk.rank_post_amended results staged_files := by
  simp [Crisk.rank_related_files, Crisk.rank_post_amended]

/-- C2: for every collaborator response and staged-file list, the related-file
list delivered to the report contains no entry whose path is in the
staged-file list, no entry with score ≤ 0.3, at most 10 entries, and is a
sublist of the collaborator result list (hence in collaborator-returned
relative order). -/
theorem rank_related_files_invariants (resp : Crisk.RankResponse)
    (staged_files : List String) :
    (∀ r ∈ Crisk.rank_related_files resp staged_files, r.filename ∉ staged_files) ∧
    (∀ r ∈ Crisk.rank_related_files resp staged_files, (3 : ℚ)/10 < r.score) ∧
    (Crisk.rank_related_files resp staged_files).length ≤ 10 ∧
    List.Sublist (Crisk.rank_related_files resp staged_files) resp.results := by
  by_cases hs : resp.status_code ≠ 200
  · rw [Crisk.rank_related_files, if_pos hs]
    refine ⟨by simp, by simp, by simp, List.nil_sublist _⟩
  · rw [Crisk.rank_related_files, if_neg hs]
    refine ⟨?_, ?_, ?_, ?_⟩
    · intro r hr
      have hp := (List.mem_filter.mp
        (List.mem_of_mem_take (List.mem_filter.mp hr).1)).2
      intro hmem
      simp at hp
      exact hp hmem
    · intro r hr
      exact of_decide_eq_true (List.mem_filter.mp hr).2
    · calc (((resp.results.filter _).take 10).filter _).length
          ≤ ((resp.results.filter
              (fun r => !(staged_files.contains r.filename))).take 10).length :=
            List.length_filter_le _ _
        _ ≤ 10 := List.length_take_le _ _
    · exact (List.filter_sublist _).trans
        ((List.take_sublist _ _).trans (List.filter_sublist _))

/-- C3 (counterexample): a run of the packaged pipeline with an empty staged
diff and empty staged-file list but no stored token terminates in the
unauthenticated condition, not in the no-staged-changes condition: `run_check`
checks authentication before the staged changes. -/
theorem no_staged_changes_unauthenticated_cex :
    Check.run_check none "" [] none = ⟨Check.CheckOutcome.noAuth, 1, 0⟩ ∧
    Check.CheckOutcome.noAuth ≠ Check.CheckOutcome.noChange := by decide

/-- C3 (amended): for every run in which the staged diff is the empty string
or the staged-file list is empty, the standalone `crisk.py` pipeline
terminates in the no-staged-changes condition with exit status 1 and zero
calls to the scoring collaborator and zero calls to the text-generation
collaborator; the packaged `run_check` pipeline does the same, with zero
backend calls, provided the run is authenticated. -/
theorem no_staged_changes_terminal (auto_draft : Bool) (diff : String)
    (staged_files : List String) (resp : Crisk.RankResponse)
    (userAcceptsDraft : Bool) (tokenFile : Option String)
    (backend : Option Check.BackendResult)
    (h : diff = "" ∨ staged_files = []) :
    Crisk.main auto_draft diff staged_files resp userAcceptsDraft
        = ⟨Crisk.Outcome.noChange, 1, 0, 0⟩ ∧
    (Auth.is_authenticated tokenFile = true →
      Check.run_check tokenFile diff staged_files backend
        = ⟨Check.CheckOutcome.noChange, 1, 0⟩) := by
  constructor
  · rw [Crisk.main, if_pos h]
  · intro ha
    rw [Check.run_check.eq_def]
    simp only [ha, Bool.not_true, Bool.false_eq_true, if_false]
    rw [if_pos h]

/-- C3 (witness): the no-staged-changes terminal behavior at a concrete run
with empty diff and a non-empty staged-file list. -/
theorem no_staged_changes_terminal_witness :
    Crisk.main false "" ["a.py"] ⟨200, []⟩ false
        = ⟨Crisk.Outcome.noChange, 1, 0, 0⟩ ∧
    Check.run_check (some "tok") "" ["a.py"] none
        = ⟨Check.CheckOutcome.noChange, 1, 0⟩ := by
  have h := no_staged_changes_terminal false "" ["a.py"] ⟨200, []⟩ false
    (some "tok") none (Or.inl rfl)
  exact ⟨h.1, h.2 (by decide)⟩

/-- C4 (counterexample): a successful blame query with a non-empty authorship
history (one author-mail record lacking the angle-bracket delimiter) resolves
to the sentinel "unknown", so "unknown" is not returned exactly when the
history is empty or the query fails. -/
theorem owner_unknown_nonempty_history_cex :
    (some ["author-mail 1234"] : Option (List String)) ≠ none ∧
    authorKeys ["author-mail 1234"] ≠ [] ∧
    get_file_owner (some ["author-mail 1234"]) = "unknown" := by
  refine ⟨by decide, by decide, by decide⟩

/-- C4 (amended): ownership resolution builds a frequency count over the
per-line authorship history keyed by author identity (a record lacking the
angle-bracket delimiter is keyed as "unknown"), returns the identity with the
maximum count, first-encountered identity on an exact tie; it returns the
sentinel "unknown" whenever the repository query fails or the history has no
author-mail record; and a history of 5 lines by alice@example.com and 3 lines
by bob@example.com resolves to alice@example.com. -/
theorem get_file_owner_resolution (lines : List String)
    (hne : authorKeys lines ≠ []) :
    get_file_owner none = "unknown" ∧
    (∀ l2 : List String, authorKeys l2 = [] → get_file_owner (some l2) = "unknown") ∧
    (get_file_owner (some lines) ∈ authorKeys lines ∧
      (∀ k ∈ authorKeys lines,
        keyCount k (authorKeys lines)
          ≤ keyCount (get_file_owner (some lines)) (authorKeys lines)) ∧
      (∀ k ∈ authorKeys lines,
        keyCount k (authorKeys lines)
            = keyCount (get_file_owner (some lines)) (authorKeys lines) →
        firstIdx (get_file_owner (some lines)) (authorKeys lines)
          ≤ firstIdx k (authorKeys lines))) ∧
    get_file_owner (some blameLinesEx) = "alice@example.com" := by
  refine ⟨rfl, ?_, get_file_owner_max lines hne, by decide⟩
  intro l2 h2
  simp only [get_file_owner, blame_authors_foldl, h2]
  rfl

/-- C4 (witness): the resolution theorem applied to the concrete 5-alice /
3-bob scenario history. -/
theorem get_file_owner_resolution_witness :
    authorKeys blameLinesEx ≠ [] ∧
    get_file_owner (some blameLinesEx) = "alice@example.com" :=
  ⟨by decide, (get_file_owner_resolution blameLinesEx (by decide)).2.2.2⟩

/-- C5 (counterexample): the standalone `crisk.py` snapshot builder includes a
readable small `.lock` file, although `.lock` is in the exclusion set stated
by the claim (and in the exclusion set of the packaged builder). -/
theorem codebase_lock_included_cex :
    Crisk.get_codebase_files [("a.lock", some "x")] = [⟨"a.lock", "x"⟩] ∧
    pyEndsWith "a.lock" ".lock" = true ∧ ".lock" ∈ check_bin_exts := by decide

/-- C5 (amended): every snapshot entry has content length ≤ 50000 and an
extension outside the exclusion list of the builder that produced it — the
list without `lock` for the standalone `crisk.py` builder, the list with
`lock` for the packaged `crisk/check.py` builder — and a file whose read
fails is silently skipped by both builders rather than aborting the build. -/
theorem codebase_snapshot_policy :
    (∀ (files : List (String × Option String)) (cf : CodeFile),
      cf ∈ Crisk.get_codebase_files files →
      cf.content.length ≤ 50000 ∧
        ∀ ext ∈ crisk_bin_exts, pyEndsWith cf.filename ext = false) ∧
    (∀ (files : List (String × Option String)) (cf : CodeFile),
      cf ∈ Check.get_codebase_files files →
      cf.content.length ≤ 50000 ∧
        ∀ ext ∈ check_bin_exts, pyEndsWith cf.filename ext = false) ∧
    (∀ (fp : String) (rest : List (String × Option String)),
      Crisk.get_codebase_files ((fp, none) :: rest)
        = Crisk.get_codebase_files rest) ∧
    (∀ (fp : String) (rest : List (String × Option String)),
      Check.get_codebase_files ((fp, none) :: rest)
        = Check.get_codebase_files rest) :=
  ⟨fun files cf h => build_codebase_bounds crisk_bin_exts files cf h,
   fun files cf h => build_codebase_bounds check_bin_exts files cf h,
   fun fp rest => build_codebase_read_skip crisk_bin_exts fp rest,
   fun fp rest => build_codebase_read_skip check_bin_exts fp rest⟩

/-- C5 (witness): the snapshot policy applied to a concrete one-file listing
accepted by the packaged builder. -/
theorem codebase_snapshot_policy_witness :
    (⟨"a.py", "x"⟩ : CodeFile).content.length ≤ 50000 ∧
    ∀ ext ∈ check_bin_exts, pyEndsWith (CodeFile.mk "a.py" "x").filename ext = false :=
  codebase_snapshot_policy.2.1 [("a.py", some "x")] ⟨"a.py", "x"⟩ (by decide)

/-- C6: for every non-200 HTTP status returned by the relatedness-scoring
collaborator, `rank_related_files` returns the empty list to its caller, and
a pipeline run that reaches the ranking step (non-empty diff, non-empty
staged-file list) then terminates in the no-related-files state with exit
status 0. -/
theorem rank_non200_empty_result (resp : Crisk.RankResponse)
    (staged_files : List String) (diff : String)
    (auto_draft userAcceptsDraft : Bool)
    (hstatus : resp.status_code ≠ 200) :
    Crisk.rank_related_files resp staged_files = [] ∧
    (diff ≠ "" → staged_files ≠ [] →
      Crisk.main auto_draft diff staged_files resp userAcceptsDraft
        = ⟨Crisk.Outcome.noRelated, 0, 1, 0⟩) := by
  have h1 : Crisk.rank_related_files resp staged_files = [] := by
    rw [Crisk.rank_related_files, if_pos hstatus]
  refine ⟨h1, fun hd hs => ?_⟩
  rw [Crisk.main, if_neg (not_or.mpr ⟨hd, hs⟩)]
  simp [h1]

/-- C6 (witness): the non-200 behavior at a concrete 500 response. -/
theorem rank_non200_empty_result_witness :
    Crisk.rank_related_files ⟨500, [⟨"b.py", 1⟩]⟩ ["a.py"] = [] ∧
    Crisk.main false "d" ["a.py"] ⟨500, [⟨"b.py", 1⟩]⟩ false
      = ⟨Crisk.Outcome.noRelated, 0, 1, 0⟩ := by
  have h := rank_non200_empty_result ⟨500, [⟨"b.py", 1⟩]⟩ ["a.py"] "d" false false
    (by decide)
  exact ⟨h.1, h.2 (by decide) (by decide)⟩

/-- C7: the check command returns a non-zero exit status in each of the three
conditions — unauthenticated (with zero backend calls, so no network call is
attempted), no staged changes, backend error — and returns 0 on success,
including the outcome where the related-file list is empty. -/
theorem run_check_exit_status (tokenFile : Option String) (diff : String)
    (staged_files : List String) (backend : Option Check.BackendResult) :
    (Auth.is_authenticated tokenFile = false →
      Check.run_check tokenFile diff staged_files backend
        = ⟨Check.CheckOutcome.noAuth, 1, 0⟩) ∧
    (Auth.is_authenticated tokenFile = true → (diff = "" ∨ staged_files = []) →
      Check.run_check tokenFile diff staged_files backend
        = ⟨Check.CheckOutcome.noChange, 1, 0⟩) ∧
    (Auth.is_authenticated tokenFile = true → diff ≠ "" → staged_files ≠ [] →
      backend = none →
      Check.run_check tokenFile diff staged_files backend
        = ⟨Check.CheckOutcome.backendError, 1, 1⟩) ∧
    (Auth.is_authenticated tokenFile = true → diff ≠ "" → staged_files ≠ [] →
      ∀ result, backend = some result →
        (Check.run_check tokenFile diff staged_files backend).exitCode = 0) := by
  refine ⟨?_, ?_, ?_, ?_⟩
  · intro ha
    rw [Check.run_check.eq_def]
    simp [ha]
  · intro ha h
    rw [Check.run_check.eq_def]
    simp only [ha, Bool.not_true, Bool.false_eq_true, if_false]
    rw [if_pos h]
  · intro ha hd hs hb
    rw [Check.run_check.eq_def]
    simp only [ha, Bool.not_true, Bool.false_eq_true, if_false, hb]
    rw [if_neg (not_or.mpr ⟨hd, hs⟩)]
  · intro ha hd hs result hb
    rw [Check.run_check.eq_def]
    simp only [ha, Bool.not_true, Bool.false_eq_true, if_false, hb]
    rw [if_neg (not_or.mpr ⟨hd, hs⟩)]
    by_cases hr : result.related_files = []
    · rw [if_pos hr]
    · rw [if_neg hr]

/-- C7 (witness): the exit-status theorem at a concrete unauthenticated run
and at a concrete successful run with an empty related-file list. -/
theorem run_check_exit_status_witness :
    Check.run_check none "d" ["a.py"] none = ⟨Check.CheckOutcome.noAuth, 1, 0⟩ ∧
    (Check.run_check (some "tok") "d" ["a.py"] (some ⟨[], ""⟩)).exitCode = 0 := by
  refine ⟨(run_check_exit_status none "d" ["a.py"] none).1 (by decide), ?_⟩
  exact (run_check_exit_status (some "tok") "d" ["a.py"] (some ⟨[], ""⟩)).2.2.2
    (by decide) (by decide) (by decide) ⟨[], ""⟩ rfl

/-- C8: an author-mail record lacking the angle-bracket delimiter is counted
under the key "unknown", so a successful query over a non-empty authorship
history can resolve to the sentinel "unknown". -/
theorem author_mail_without_angle_unknown :
    blame_authors ["author-mail roger"] = [("unknown", 1)] ∧
    get_file_owner (some ["author-mail roger"]) = "unknown" ∧
    (["author-mail roger"] : List String) ≠ [] := by decide

/-- C9: `is_authenticated` returns true exactly when the token file exists and
its content stripped of leading and trailing whitespace is non-empty; in
particular a token file containing only whitespace counts as unauthenticated. -/
theorem is_authenticated_iff_nonblank_token :
    (∀ tokenFile : Option String,
      Auth.is_authenticated tokenFile = true ↔
        ∃ content, tokenFile = some content ∧ pyStrip content ≠ "") ∧
    Auth.is_authenticated (some "   ") = false := by
  constructor
  · intro tokenFile
    cases tokenFile with
    | none => simp [Auth.is_authenticated, Auth.load_token]
    | some content =>
      simp only [Auth.is_authenticated, Auth.load_token]
      rw [decide_eq_true_eq, string_length_pos]
      constructor
      · intro h
        exact ⟨content, rfl, h⟩
      · rintro ⟨c, hc, hne⟩
        injection hc with hc
        rw [hc]
        exact hne
  · decide

/-- C10: the staged-file list contains no empty-string entries for any query
output, and an empty or whitespace-only query output yields the empty list
rather than a singleton holding the empty string. -/
theorem get_staged_files_no_empty_entries :
    (∀ stdout : String, "" ∉ get_staged_files stdout) ∧
    (∀ stdout : String, pyStrip stdout = "" → get_staged_files stdout = []) := by
  constructor
  · intro stdout hmem
    have hb := (List.mem_filter.mp hmem).2
    simp at hb
  · intro stdout h
    rw [get_staged_files, h]
    rfl

/-- C10 (witness): a whitespace-only query output yields the empty list. -/
theorem get_staged_files_no_empty_entries_witness :
    get_staged_files " \n " = [] :=
  get_staged_files_no_empty_entries.2 " \n " (by decide)
